import Mathlib

/-!
Verification of the `pwgen` deterministic password generator
(`pwgen.py`, `pwgen_web.py`) against its natural-language specification.

The repository's own code is embedded shallowly below.  External library
primitives (Argon2id from `argon2.low_level`, SHA-512 / HMAC from `hashlib`
and `hmac`, the ChaCha20 keystream and the ChaCha20-Poly1305 AEAD from
`cryptography`, base64 and the JSON codec from the standard library) are
modelled as parameters: structures whose fields are the functions the code
calls, together with the contracts those libraries guarantee (AEAD
round-trip, ciphertext length, codec round-trips).  Every theorem below is
universally quantified over those structures, and concrete executable
instances are provided for the witnesses.

The two unbounded rejection-sampling loops of the source
(`rand_below`'s 32-bit draw loop and the password-character collection
loop) are embedded with an explicit fuel parameter: `none` means the fuel
ran out before the loop finished, `some` is the value the Python loop
returns.  All results proved about `some`-outcomes therefore hold for every
value the Python code can actually return, and fuel-stability theorems show
the returned value does not depend on the fuel.

Byte strings are `List Nat` with each entry a byte value; Python text is
`String`, encoded with the UTF-8 encoder below where the source calls
`.encode('utf-8')`.
-/

set_option maxHeartbeats 1000000

namespace Pwgen

/-- Byte strings (Python `bytes`): lists of byte values. -/
abbrev Bytes := List Nat

/-- UTF-8 encoding of one code point (Python `str.encode('utf-8')`, per char). -/
def charUtf8 (ch : Char) : Bytes :=
  let n := ch.toNat
  if n < 128 then [n]
  else if n < 2048 then [192 + n / 64, 128 + n % 64]
  else if n < 65536 then [224 + n / 4096, 128 + n / 64 % 64, 128 + n % 64]
  else [240 + n / 262144, 128 + n / 4096 % 64, 128 + n / 64 % 64, 128 + n % 64]

/-- UTF-8 encoding of a string (Python `s.encode('utf-8')`). -/
def utf8Bytes (s : String) : Bytes :=
  (s.data.map charUtf8).flatten

/-- Lowercase hex digit for a nibble. -/
def hexDigitChar (n : Nat) : Char :=
  if n < 10 then Char.ofNat (48 + n) else Char.ofNat (87 + n)

/-- Python `bytes.hex()`: two lowercase hex digits per byte. -/
def bytesHex (b : Bytes) : String :=
  String.mk ((b.map (fun x => [hexDigitChar (x / 16 % 16), hexDigitChar (x % 16)])).flatten)

/-- Join a list of strings with a separator (Python `sep.join`). -/
def joinSep (sep : String) : List String → String
  | [] => ""
  | [x] => x
  | x :: y :: rest => x ++ sep ++ joinSep sep (y :: rest)

/-- Four lowercase hex digits (for JSON `\uXXXX` escapes). -/
def hex4 (n : Nat) : String :=
  String.mk [hexDigitChar (n / 4096 % 16), hexDigitChar (n / 256 % 16),
             hexDigitChar (n / 16 % 16), hexDigitChar (n % 16)]

/-- JSON escaping of one character, as produced by Python `json.dumps` with its
default `ensure_ascii=True`: `\"`, `\\`, the short control escapes, `\uXXXX`
for other control characters and all non-ASCII characters (surrogate pairs
beyond the BMP). -/
def jsonEscapeChar (ch : Char) : String :=
  let n := ch.toNat
  if n = 34 then String.mk [Char.ofNat 92, Char.ofNat 34]
  else if n = 92 then String.mk [Char.ofNat 92, Char.ofNat 92]
  else if n = 8 then String.mk [Char.ofNat 92, Char.ofNat 98]
  else if n = 9 then String.mk [Char.ofNat 92, Char.ofNat 116]
  else if n = 10 then String.mk [Char.ofNat 92, Char.ofNat 110]
  else if n = 12 then String.mk [Char.ofNat 92, Char.ofNat 102]
  else if n = 13 then String.mk [Char.ofNat 92, Char.ofNat 114]
  else if n < 32 then String.mk [Char.ofNat 92, Char.ofNat 117] ++ hex4 n
  else if n < 128 then String.mk [ch]
  else if n < 65536 then String.mk [Char.ofNat 92, Char.ofNat 117] ++ hex4 n
  else
    let m := n - 65536
    String.mk [Char.ofNat 92, Char.ofNat 117] ++ hex4 (55296 + m / 1024) ++
      String.mk [Char.ofNat 92, Char.ofNat 117] ++ hex4 (56320 + m % 1024)

/-- JSON string literal for `s` (Python `json.dumps` on a `str`). -/
def jsonQuote (s : String) : String :=
  String.mk [Char.ofNat 34] ++ String.join (s.data.map jsonEscapeChar) ++ String.mk [Char.ofNat 34]

/-- JSON array with `json.dumps`'s default item separator `", "`. -/
def jsonArr (elems : List String) : String :=
  "[" ++ joinSep ", " elems ++ "]"

/-- Strict code-point lexicographic order on key characters
(Python string `<`, used by `sort_keys=True`). -/
def keyLt : List Char → List Char → Bool
  | [], [] => false
  | [], _ :: _ => true
  | _ :: _, [] => false
  | a :: as, b :: bs =>
    if a.toNat < b.toNat then true
    else if b.toNat < a.toNat then false
    else keyLt as bs

/-- Insertion step of a stable insertion sort on (key, rendered value) pairs. -/
def insortKV (kv : String × String) : List (String × String) → List (String × String)
  | [] => [kv]
  | kv2 :: rest =>
    if keyLt kv.1.data kv2.1.data then kv :: kv2 :: rest else kv2 :: insortKV kv rest

/-- Stable insertion sort by key (the effect of `sort_keys=True`). -/
def sortKV : List (String × String) → List (String × String)
  | [] => []
  | kv :: rest => insortKV kv (sortKV rest)

/-- A site policy: `length`, `classes`, `forbid` (pwgen.py records always
carry all three keys, see `cmd_add`). -/
structure Policy where
  length : Nat
  classes : List String
  forbid : List Char
deriving DecidableEq

/-- The `(key, serialized value)` pairs of the policy dict, in the insertion
order used by `cmd_add` (`length`, `classes`, `forbid`). -/
def policyKVs (p : Policy) : List (String × String) :=
  [("length", Nat.repr p.length),
   ("classes", jsonArr (p.classes.map jsonQuote)),
   ("forbid", jsonArr (p.forbid.map (fun ch => jsonQuote (String.mk [ch]))))]

/-- Python `json.dumps(d, sort_keys=True)` on a flat dict: keys sorted
ascending, default separators `", "` between items and `": "` after keys. -/
def dumpsSorted (kvs : List (String × String)) : String :=
  "\x7b" ++ joinSep ", " ((sortKV kvs).map (fun kv => jsonQuote kv.1 ++ ": " ++ kv.2)) ++ "\x7d"

/-- The `json.dumps(policy, sort_keys=True)` component of the derivation
context (pwgen.py line 281). -/
def policy_json (p : Policy) : String := dumpsSorted (policyKVs p)

/-- Modelled from the spec: the spec's claimed `policy_json`, "keys sorted
ascending and no whitespace", i.e. `json.dumps` with compact separators
`","` and `":"` (which the source does NOT pass). -/
def dumpsSortedCompact (kvs : List (String × String)) : String :=
  "\x7b" ++ joinSep "," ((sortKV kvs).map (fun kv => jsonQuote kv.1 ++ ":" ++ kv.2)) ++ "\x7d"

/-- Modelled from the spec: compact JSON array, no whitespace. -/
def jsonArrCompact (elems : List String) : String :=
  "[" ++ joinSep "," elems ++ "]"

/-- Modelled from the spec: the whitespace-free policy serialization the
spec describes (`policy_json` with keys sorted and no whitespace). -/
def policy_json_compact (p : Policy) : String :=
  dumpsSortedCompact
    [("length", Nat.repr p.length),
     ("classes", jsonArrCompact (p.classes.map jsonQuote)),
     ("forbid", jsonArrCompact (p.forbid.map (fun ch => jsonQuote (String.mk [ch]))))]

/-- The algorithm version tag `ALGO_VERSION = "sha512-v1"`. -/
def ALGO_VERSION : String := "sha512-v1"

/-- The derivation context string of `gen_password` (pwgen.py lines 281-282):
`f"pwgen|{v}|{site_id}|{login}|{json.dumps(policy,sort_keys=True)}|c={c}|r={rseed.hex()}"`. -/
def contextString (v site_id login : String) (pol : Policy) (c : Nat) (rseed : Bytes) : String :=
  "pwgen|" ++ v ++ "|" ++ site_id ++ "|" ++ login ++ "|" ++ policy_json pol ++
    "|c=" ++ Nat.repr c ++ "|r=" ++ bytesHex rseed

/-- The fixed character-class table `CLASSES` of pwgen.py. -/
def CLASSES (name : String) : Option String :=
  if name = "lower" then some "abcdefghijklmnopqrstuvwxyz"
  else if name = "upper" then some "ABCDEFGHIJKLMNOPQRSTUVWXYZ"
  else if name = "digits" then some "0123456789"
  else if name = "symbols" then some "!#$%&()*+,-./:;<=>?@[]^_\x7b|\x7d~"
  else none

/-- Error kinds surfaced by the derivation code (`ValueError` / `KeyError`
raises of pwgen.py, plus the `NameError` of an empty retry loop). -/
inductive PwErr where
  | unsupportedVersion
  | unknownClass
  | emptyAlphabet
  | hkdfTooLong
  | noCandidate
deriving DecidableEq

/-- The per-class lookups of `build_alphabet`'s loop: `CLASSES[cls]` for each
requested class, in order (`KeyError` on an unknown name gives `none`). -/
def classLookup : List String → Option (List (List Char))
  | [] => some []
  | c :: rest =>
    match CLASSES c with
    | none => none
    | some s => (classLookup rest).map (fun ls => s.data :: ls)

/-- `build_alphabet` (pwgen.py lines 255-266): concatenate the class strings,
collect the per-class required sets, remove each forbidden character, fail on
an empty result. -/
def build_alphabet (pol : Policy) : Except PwErr (List Char × List (List Char)) :=
  match classLookup pol.classes with
  | none => .error .unknownClass
  | some sets =>
    let allow0 := sets.flatten
    let allow := pol.forbid.foldl (fun acc ch => acc.filter (fun c => c ≠ ch)) allow0
    if allow.isEmpty then .error .emptyAlphabet else .ok (allow, sets)

/-- `satisfies_classes` (pwgen.py lines 268-272): the password has at least
one character in common with every required set. -/
def satisfies_classes (pwd : List Char) (required_sets : List (List Char)) : Bool :=
  required_sets.all (fun req => pwd.any (fun ch => req.contains ch))

/-- The external cryptographic primitives pwgen.py calls (all from outside
the repository): `hashlib.sha512`, `argon2.low_level.hash_secret_raw` with
`Type.ID`, `hmac.new(·,·,hashlib.sha512)`, and the keystream byte of
`cryptography`'s ChaCha20 (key, 16-byte nonce, byte index).  They are pure
functions of their inputs; theorems quantify over this structure. -/
structure Crypto where
  sha512 : Bytes → Bytes
  argon2id : Bytes → Bytes → Nat → Nat → Nat → Nat → Bytes
  hmacSha512 : Bytes → Bytes → Bytes
  chacha : Bytes → Bytes → Nat → Nat

/-- `sha512_256` (pwgen.py lines 60-61): SHA-512 truncated to 32 bytes. -/
def sha512_256 (P : Crypto) (data : Bytes) : Bytes :=
  (P.sha512 data).take 32

/-- `hkdf_expand_sha512` (pwgen.py lines 63-68): single-block HKDF-Expand,
`HMAC-SHA-512(prk, info || 0x01)[:L]`, refusing `L > 64`. -/
def hkdf_expand_sha512 (P : Crypto) (prk info : Bytes) (L : Nat) : Option Bytes :=
  if 64 < L then none
  else some ((P.hmacSha512 prk (info ++ [1])).take L)

/-- `hkdf_extract_sha512` (pwgen.py lines 70-73): `HMAC-SHA-512(salt, ikm)[:L]`
with an all-zero 64-byte salt when the salt is empty. -/
def hkdf_extract_sha512 (P : Crypto) (salt ikm : Bytes) (L : Nat) : Bytes :=
  let salt' := if salt = [] then List.replicate 64 0 else salt
  (P.hmacSha512 salt' ikm).take L

/-- `chacha20_stream` (pwgen.py lines 215-222), main path: the ChaCha20
keystream bytes for a key and a 16-byte nonce, as an infinite stream. -/
def chacha20_stream (P : Crypto) (key nonce : Bytes) : Nat → Nat :=
  fun i => P.chacha key nonce i

/-- The 32-bit big-endian value assembled from four consecutive stream bytes
(`(b0<<24)|(b1<<16)|(b2<<8)|b3`, pwgen.py line 240). -/
def rbVal (s : Nat → Nat) (pos : Nat) : Nat :=
  Nat.lor (Nat.shiftLeft (s pos) 24)
    (Nat.lor (Nat.shiftLeft (s (pos + 1)) 16)
      (Nat.lor (Nat.shiftLeft (s (pos + 2)) 8) (s (pos + 3))))

/-- The rejection limit `(1<<32) - ((1<<32) % (n+1))` of `rand_below`. -/
def rbLimit (n : Nat) : Nat :=
  2 ^ 32 - 2 ^ 32 % (n + 1)

/-- The rejection loop of `rand_below` (pwgen.py lines 237-243).  `pos` is the
read position in the byte stream; each attempt consumes four bytes.  `fuel`
bounds the number of attempts; the Python loop is unbounded and `none` means
the bound was hit before acceptance. -/
def randLoop (s : Nat → Nat) (n : Nat) : Nat → Nat → Option (Nat × Nat)
  | _pos, 0 => none
  | pos, fuel + 1 =>
    if rbVal s pos < rbLimit n then some (rbVal s pos % (n + 1), pos + 4)
    else randLoop s n (pos + 4) fuel

/-- `rand_below` (pwgen.py lines 234-243): uniform value in `[0, n]`; `n ≤ 0`
returns 0 at once without consuming bytes.  Returns the drawn value and the
new stream position. -/
def rand_below (s : Nat → Nat) (n pos fuel : Nat) : Option (Nat × Nat) :=
  if n = 0 then some (0, pos) else randLoop s n pos fuel

/-- The simultaneous swap `arr[i], arr[j] = arr[j], arr[i]` on a list
(both reads happen before either write). -/
def swapL (l : List α) (i j : Nat) (d : α) : List α :=
  (l.set i (l.getD j d)).set j (l.getD i d)

/-- The Fisher-Yates loop of `permute_list` (pwgen.py lines 248-250):
for `i` from `len-1` down to 1, draw `j ← rand_below(it, i)` and swap.
`fuel` is the per-draw rejection bound passed to each `rand_below` call. -/
def fisherYates (s : Nat → Nat) (d : α) : List α → Nat → Nat → Nat → Option (List α × Nat)
  | arr, 0, pos, _fuel => some (arr, pos)
  | arr, i + 1, pos, fuel =>
    match rand_below s (i + 1) pos fuel with
    | none => none
    | some jp => fisherYates s d (swapL arr (i + 1) jp.1 d) i jp.2 fuel

/-- `permute_list` (pwgen.py lines 245-251): copy the list and shuffle it with
a fresh ChaCha20 stream keyed by `key_for_perm` (16 zero-byte nonce), reading
from position 0. -/
def permute_list (P : Crypto) (items : List α) (key_for_perm : Bytes) (d : α)
    (fuel : Nat) : Option (List α) :=
  (fisherYates (chacha20_stream P key_for_perm (List.replicate 16 0)) d
    items (items.length - 1) 0 fuel).map Prod.fst

/-- The character-collection loop of `gen_password` (pwgen.py lines 303-307):
read stream bytes, accept `b < T` as character `A[b % M]`, until `L`
characters are collected.  `fuel` bounds the number of bytes examined. -/
def collectPw (s : Nat → Nat) (A : List Char) (M T : Nat) :
    Nat → Nat → Nat → Option (List Char × Nat)
  | 0, pos, _fuel => some ([], pos)
  | _L + 1, _pos, 0 => none
  | L + 1, pos, fuel + 1 =>
    if s pos < T then
      (collectPw s A M T L (pos + 1) fuel).map
        (fun r => (A.getD (s pos % M) (Char.ofNat 97) :: r.1, r.2))
    else collectPw s A M T (L + 1) (pos + 1) fuel

/-- Default Argon2id parameters `DEFAULT_KDF_T/M/P` of pwgen.py. -/
def DEFAULT_KDF_T : Nat := 3
/-- Default Argon2id memory cost (KiB). -/
def DEFAULT_KDF_M : Nat := 131072
/-- Default Argon2id parallelism. -/
def DEFAULT_KDF_P : Nat := 1

/-- `gen_password` (pwgen.py lines 276-311).  Fallible stages are explicit:
`.error` models the `ValueError`/`KeyError` raises, `.ok none` means a
rejection loop exceeded its fuel (the Python loop would still be running),
`.ok (some pwd)` is the returned password as a character list
(`"".join(out)`). -/
def gen_password (P : Crypto) (master : String) (capsule : Bytes)
    (site_id login : String) (policy : Policy) (v : String) (c : Nat)
    (rseed : Bytes) (fuel : Nat) : Except PwErr (Option (List Char)) :=
  if v ≠ ALGO_VERSION then .error .unsupportedVersion
  else
    let context := utf8Bytes (contextString v site_id login policy c rseed)
    let base_salt := sha512_256 P (utf8Bytes "salt|" ++ context)
    let prk0 := P.argon2id (utf8Bytes master) base_salt DEFAULT_KDF_T DEFAULT_KDF_M DEFAULT_KDF_P 32
    let prk := if capsule ≠ [] ∧ 32 ≤ capsule.length
               then hkdf_extract_sha512 P prk0 capsule 32 else prk0
    match hkdf_expand_sha512 P prk (utf8Bytes "password|" ++ context) 32,
          hkdf_expand_sha512 P prk (utf8Bytes "alphabet|" ++ context) 32 with
    | some Kpwd, some Kperm =>
      match build_alphabet policy with
      | .error e => .error e
      | .ok (allow, _required) =>
        match permute_list P allow Kperm (Char.ofNat 97) fuel with
        | none => .ok none
        | some A =>
          let L := policy.length
          let M := A.length
          let T := 256 / M * M
          match collectPw (chacha20_stream P Kpwd (List.replicate 16 0)) A M T L 0 fuel with
          | none => .ok none
          | some out =>
            match permute_list P out.1 Kpwd (Char.ofNat 97) fuel with
            | none => .ok none
            | some out2 => .ok (some out2)
    | _, _ => .error .hkdfTooLong

/-- The retry loop of `gen_password_with_retries` (pwgen.py lines 317-322),
with `cur = c + i` and the number of remaining tries as second argument.
The last try returns its candidate whether or not it satisfies the policy
(on failure the loop falls through to `return pwd, (c + max_tries - 1)`,
which is the same pair).  Zero remaining tries models the `NameError` of
`return pwd` with `pwd` unbound. -/
def retriesGo (P : Crypto) (master : String) (capsule : Bytes)
    (site_id login : String) (policy : Policy) (v : String) (rseed : Bytes)
    (required : List (List Char)) (fuel : Nat) :
    Nat → Nat → Except PwErr (Option (List Char × Nat))
  | _cur, 0 => .error .noCandidate
  | cur, 1 =>
    match gen_password P master capsule site_id login policy v cur rseed fuel with
    | .error e => .error e
    | .ok none => .ok none
    | .ok (some pwd) => .ok (some (pwd, cur))
  | cur, k + 2 =>
    match gen_password P master capsule site_id login policy v cur rseed fuel with
    | .error e => .error e
    | .ok none => .ok none
    | .ok (some pwd) =>
      if satisfies_classes pwd required then .ok (some (pwd, cur))
      else retriesGo P master capsule site_id login policy v rseed required fuel (cur + 1) (k + 1)

/-- `gen_password_with_retries` (pwgen.py lines 313-322): build the required
sets once, then try counters `c, c+1, ...` up to `max_tries` times, returning
the first candidate that satisfies the classes (or the last candidate). -/
def gen_password_with_retries (P : Crypto) (master : String) (capsule : Bytes)
    (site_id login : String) (policy : Policy) (v : String) (c : Nat)
    (rseed : Bytes) (max_tries fuel : Nat) : Except PwErr (Option (List Char × Nat)) :=
  match build_alphabet policy with
  | .error e => .error e
  | .ok ar =>
    retriesGo P master capsule site_id login policy v rseed ar.2 fuel c max_tries

/-- The ChaCha20-Poly1305 AEAD of the `cryptography` library (external),
with the contracts RFC 8439 and the library guarantee: decrypting what was
encrypted under the same key/nonce/aad returns the plaintext, and the
encryption output is ciphertext plus a 16-byte tag. -/
structure AEAD where
  encrypt : Bytes → Bytes → Bytes → Bytes → Bytes
  decrypt : Bytes → Bytes → Bytes → Bytes → Option Bytes
  decrypt_encrypt : ∀ k n pt aad, decrypt k n (encrypt k n pt aad) aad = some pt
  encrypt_length : ∀ k n pt aad, (encrypt k n pt aad).length = pt.length + 16

/-- The associated data `b"pwgen|vault|v1"` of the vault envelope. -/
def vaultAAD : Bytes := utf8Bytes "pwgen|vault|v1"

/-- The associated data `b"pwgen|drbg"` of the DRBG fallback. -/
def drbgAAD : Bytes := utf8Bytes "pwgen|drbg"

/-- `counter.to_bytes(w, "big")`: big-endian fixed-width byte encoding. -/
def beBytes (w n : Nat) : Bytes :=
  (List.range w).map (fun i => n / 256 ^ (w - 1 - i) % 256)

/-- One block of the ChaCha20-Poly1305 DRBG fallback (pwgen.py lines 228-229):
`aead.encrypt(nonce[:4] || be64(counter), 64 zero bytes, b"pwgen|drbg")`.
The value includes the 16-byte Poly1305 tag, exactly as `aead.encrypt`
returns it. -/
def fallbackBlock (E : AEAD) (key nonce : Bytes) (counter : Nat) : Bytes :=
  E.encrypt key (nonce.take 4 ++ beBytes 8 counter) (List.replicate 64 0) drbgAAD

/-- The bytes emitted by the first `k` iterations of the fallback generator
loop (pwgen.py lines 224-232): each iteration yields every byte of `ct`. -/
def fallbackOut (E : AEAD) (key nonce : Bytes) : Nat → Bytes
  | 0 => []
  | k + 1 => fallbackOut E key nonce k ++ fallbackBlock E key nonce k

/-- Modelled from the spec: the stream the spec describes for the fallback,
"emitting the ciphertext (tag excluded)" — each block contributing only the
first 64 bytes of the AEAD output. -/
def fallbackOutClaim (E : AEAD) (key nonce : Bytes) : Nat → Bytes
  | 0 => []
  | k + 1 => fallbackOutClaim E key nonce k ++ (fallbackBlock E key nonce k).take 64

/-- The standard-library codecs pwgen.py uses (external): urlsafe base64 for
opaque byte fields, and the JSON codec for the plaintext vault document,
each with its round-trip contract. -/
structure Codec where
  b64e : Bytes → String
  b64d : String → Bytes
  b64_roundtrip : ∀ b, b64d (b64e b) = b

/-- The on-disk vault envelope (the dict returned by `vault_encrypt`,
pwgen.py lines 152-158). -/
structure VaultBlob where
  version : String
  kdf_t : Nat
  kdf_m : Nat
  kdf_p : Nat
  kdf_salt : String
  aead_nonce : String
  ciphertext : String
  written_at : String
deriving DecidableEq

/-- `kdf_argon2id` (pwgen.py lines 140-143): Argon2id over the UTF-8 master
with a 32-byte output. -/
def kdf_argon2id (P : Crypto) (master : String) (salt : Bytes) (t m p : Nat) : Bytes :=
  P.argon2id (utf8Bytes master) salt t m p 32

/-- `vault_encrypt` (pwgen.py lines 145-158).  The fresh random salt and
nonce drawn by `os.urandom` are parameters. -/
def vault_encrypt (E : AEAD) (C : Codec) (P : Crypto) (plaintext : Bytes)
    (master : String) (t m p : Nat) (salt nonce : Bytes) (now : String) : VaultBlob :=
  let key := kdf_argon2id P master salt t m p
  let ct := E.encrypt key nonce plaintext vaultAAD
  { version := "pwgen_vault_v1"
    kdf_t := t, kdf_m := m, kdf_p := p, kdf_salt := C.b64e salt
    aead_nonce := C.b64e nonce
    ciphertext := C.b64e ct
    written_at := now }

/-- `vault_decrypt` (pwgen.py lines 160-169): reject a wrong version tag,
re-derive the key, decrypt; `none` is the raised error. -/
def vault_decrypt (E : AEAD) (C : Codec) (P : Crypto) (blob : VaultBlob)
    (master : String) : Option Bytes :=
  if blob.version ≠ "pwgen_vault_v1" then none
  else
    let salt := C.b64d blob.kdf_salt
    let key := kdf_argon2id P master salt blob.kdf_t blob.kdf_m blob.kdf_p
    let nonce := C.b64d blob.aead_nonce
    let ct := C.b64d blob.ciphertext
    E.decrypt key nonce ct vaultAAD

/-- A site record (the dict stored under `pt["sites"][key]`, pwgen.py lines
385-394).  `rseed` holds the 16 random bytes (stored hex-encoded on disk;
hex encoding is a bijection on byte strings). -/
structure SiteRecord where
  site_id : String
  login : String
  v : String
  c : Nat
  rseed : Bytes
  policy : Policy
  created : String
  notes : String
deriving DecidableEq

/-- The decrypted plaintext vault document (pwgen.py lines 187-194).
`sites` is the insertion-ordered dict as an association list. -/
structure Plaintext where
  capsule : Bytes
  sites : List (String × SiteRecord)
  created : String
  updated : String
  algo_version : String
deriving DecidableEq

/-- Association-list lookup with Python dict semantics. -/
def lookupA : List (String × SiteRecord) → String → Option SiteRecord
  | [], _ => none
  | kv :: rest, k => if kv.1 = k then some kv.2 else lookupA rest k

/-- Association-list assignment with Python dict semantics: replace in place
when the key exists, append otherwise. -/
def setA : List (String × SiteRecord) → String → SiteRecord → List (String × SiteRecord)
  | [], k, v => [(k, v)]
  | kv :: rest, k, v => if kv.1 = k then (k, v) :: rest else kv :: setA rest k v

/-- The JSON codec for the plaintext document (external `json.dumps`/
`json.loads` on the fixed vault schema), with its round-trip contract. -/
structure PTCodec where
  dumpPT : Plaintext → Bytes
  parsePT : Bytes → Option Plaintext
  pt_roundtrip : ∀ d, parsePT (dumpPT d) = some d

/-- `write_plaintext` (pwgen.py lines 201-206): refresh `updated`, serialize,
encrypt, save.  The written envelope is returned (the file then holds it). -/
def write_plaintext (E : AEAD) (C : Codec) (J : PTCodec) (P : Crypto)
    (master : String) (data : Plaintext) (t m p : Nat) (salt nonce : Bytes)
    (now : String) : VaultBlob :=
  let data' := { data with updated := now }
  vault_encrypt E C P (J.dumpPT data') master t m p salt nonce now

/-- `read_plaintext` (pwgen.py lines 196-199): decrypt the loaded envelope
and parse the inner JSON. -/
def read_plaintext (E : AEAD) (C : Codec) (J : PTCodec) (P : Crypto)
    (blob : VaultBlob) (master : String) : Option Plaintext :=
  (vault_decrypt E C P blob master).bind J.parsePT

/-- The default forbidden characters `['"', "'", '`', ' ']` (written with
`Char.ofNat` codes 34, 39, 96, 32). -/
def forbidDefault : List Char :=
  [Char.ofNat 34, Char.ofNat 39, Char.ofNat 96, Char.ofNat 32]

/-- The built-in policy profiles `PROFILES` of pwgen.py. -/
def PROFILES (name : String) : Option Policy :=
  if name = "strict" then
    some ⟨24, ["lower", "upper", "digits", "symbols"], forbidDefault⟩
  else if name = "legacy" then
    some ⟨16, ["lower", "upper", "digits"], forbidDefault⟩
  else if name = "pin" then
    some ⟨10, ["digits"], []⟩
  else if name = "hard" then
    some ⟨40, ["lower", "upper", "digits", "symbols"], forbidDefault⟩
  else if name = "ultra" then
    some ⟨64, ["lower", "upper", "digits", "symbols"], forbidDefault⟩
  else none

/-- The record creation of `cmd_add` (pwgen.py lines 385-394). -/
def addRecord (pt : Plaintext) (key site_id login : String) (pol : Policy)
    (rseed : Bytes) (now notes : String) : Plaintext :=
  let r : SiteRecord := ⟨site_id, login, ALGO_VERSION, 0, rseed, pol, now, notes⟩
  { pt with sites := setA pt.sites key r }

/-- `cmd_add` (pwgen.py lines 364-397), on the decrypted plaintext: fail if
the composite key exists; take the policy from a profile or build it verbatim
from the `--length`, `--classes`, `--forbid` arguments (defaults 24 /
all four classes / `['"', "'", '`', ' ']`); store the new record with
`v = ALGO_VERSION`, `c = 0` and the fresh `rseed`.  No policy validation is
performed.  `site_id` and `login` are already canonicalized/stripped. -/
def cmd_add (pt : Plaintext) (site_id login : String) (profile : Option String)
    (lengthArg : Nat) (classesArg : Option (List String))
    (forbidArg : Option (List Char)) (notes : String) (rseed : Bytes)
    (now : String) : Option Plaintext :=
  let key := site_id ++ "|" ++ login
  if (lookupA pt.sites key).isSome then none
  else
    match profile with
    | some name =>
      match PROFILES name with
      | none => none
      | some pol => some (addRecord pt key site_id login pol rseed now notes)
    | none =>
      let classes := classesArg.getD ["lower", "upper", "digits", "symbols"]
      let forbid := forbidArg.getD forbidDefault
      some (addRecord pt key site_id login ⟨lengthArg, classes, forbid⟩ rseed now notes)

/-- `cmd_get` (pwgen.py lines 399-440), data flow only: look the record up,
apply the optional length/classes/forbid overrides to a copy of its policy,
derive with retries.  The command never writes the vault, so the plaintext
is returned unchanged alongside the derivation result. -/
def cmd_get (P : Crypto) (pt : Plaintext) (master : String)
    (site_id login : String) (length_ov : Option Nat)
    (classes_ov : Option (List String)) (forbid_ov : Option (List Char))
    (fuel : Nat) : Option (Except PwErr (Option (List Char × Nat)) × Plaintext) :=
  let key := site_id ++ "|" ++ login
  match lookupA pt.sites key with
  | none => none
  | some entry =>
    let policy0 := entry.policy
    let policy1 := match length_ov with
                   | none => policy0
                   | some L => { policy0 with length := L }
    let policy2 := match classes_ov with
                   | none => policy1
                   | some cs => { policy1 with classes := cs }
    let policy3 := match forbid_ov with
                   | none => policy2
                   | some fb => { policy2 with forbid := fb }
    some (gen_password_with_retries P master pt.capsule site_id login policy3
            entry.v entry.c entry.rseed 8 fuel, pt)

/-- `cmd_rotate` (pwgen.py lines 442-465), on the decrypted plaintext:
`counter` mode increments `c`, `rseed` mode stores the fresh 16 random bytes
and resets `c = 0`, any other mode fails; both modes then set
`entry["v"] = ALGO_VERSION` and store the entry back. -/
def cmd_rotate (pt : Plaintext) (site_id login : String) (mode : String)
    (newRseed : Bytes) (now : String) : Option Plaintext :=
  let key := site_id ++ "|" ++ login
  match lookupA pt.sites key with
  | none => none
  | some entry =>
    match (if mode = "counter" then some { entry with c := entry.c + 1 }
           else if mode = "rseed" then some { entry with rseed := newRseed, c := 0 }
           else none : Option SiteRecord) with
    | none => none
    | some e1 =>
      let e2 := { e1 with v := ALGO_VERSION }
      some { pt with sites := setA pt.sites key e2, updated := now }

/-- The rotation branch of the web UI (`pwgen_web.py` lines 451-471,
actions `rotate_c` / `rotate_rseed`): identical record mutation, performed on
the same decrypted plaintext and written back. -/
def web_rotate (pt : Plaintext) (site_id login : String) (action : String)
    (newRseed : Bytes) (now : String) : Option Plaintext :=
  let key := site_id ++ "|" ++ login
  match lookupA pt.sites key with
  | none => none
  | some entry =>
    match (if action = "rotate_c" then some { entry with c := entry.c + 1 }
           else if action = "rotate_rseed" then some { entry with rseed := newRseed, c := 0 }
           else none : Option SiteRecord) with
    | none => none
    | some e1 =>
      let e2 := { e1 with v := ALGO_VERSION }
      some { pt with sites := setA pt.sites key e2, updated := now }

/-- A concrete, executable `Crypto` instance used by the evaluation
witnesses (the theorems hold for every instance, so simple functions
suffice to exercise them). -/
def dummyCrypto : Crypto where
  sha512 := fun _ => List.replicate 64 0
  argon2id := fun _ _ _ _ _ L => List.replicate L 1
  hmacSha512 := fun k m => (List.range 64).map (fun i => (k.length + m.length + i) % 256)
  chacha := fun _ _ i => i % 256

/-- A concrete `AEAD` instance satisfying the library contracts: append a
16-byte tag on encryption, strip it on decryption. -/
def dummyAEAD : AEAD where
  encrypt := fun _ _ pt _ => pt ++ List.replicate 16 7
  decrypt := fun _ _ ct _ => some (ct.take (ct.length - 16))
  decrypt_encrypt := by intro k n pt aad; simp
  encrypt_length := by intro k n pt aad; simp

/-- Unary rendering of one byte count for the dummy base64 codec. -/
def unaryEnc : Bytes → List Char
  | [] => []
  | n :: rest => List.replicate n (Char.ofNat 97) ++ Char.ofNat 98 :: unaryEnc rest

/-- Decoder for `unaryEnc`. -/
def unaryDecGo (acc : Nat) : List Char → Bytes
  | [] => []
  | ch :: rest =>
    if ch = Char.ofNat 98 then acc :: unaryDecGo 0 rest else unaryDecGo (acc + 1) rest

/-- A concrete `Codec` instance satisfying the round-trip contract. -/
def dummyCodec : Codec where
  b64e := fun b => String.mk (unaryEnc b)
  b64d := fun s => unaryDecGo 0 s.data
  b64_roundtrip := by
    have key : ∀ (n acc : Nat) (rest : List Char),
        unaryDecGo acc (List.replicate n (Char.ofNat 97) ++ Char.ofNat 98 :: rest) =
          (acc + n) :: unaryDecGo 0 rest := by
      intro n
      induction n with
      | zero => intro acc rest; simp [unaryDecGo]
      | succ m ih =>
        intro acc rest
        rw [List.replicate_succ, List.cons_append]
        show unaryDecGo acc (Char.ofNat 97 :: _) = _
        rw [show ∀ l, unaryDecGo acc (Char.ofNat 97 :: l) = unaryDecGo (acc + 1) l by
              intro l; simp [unaryDecGo]]
        rw [ih]
        congr 1
        omega
    intro b
    induction b with
    | nil => rfl
    | cons n rest ih =>
      show unaryDecGo 0 (unaryEnc (n :: rest)) = n :: rest
      rw [unaryEnc, key]
      simpa using ih

/-- Numeric image of a string (char code points) for the dummy JSON codec. -/
def strCode (s : String) : List Nat := s.data.map Char.toNat

/-- Inverse of `strCode`. -/
def strOf (l : List Nat) : String := String.mk (l.map Char.ofNat)

/-- Numeric image of a policy. -/
def polCode (p : Policy) : Nat × List (List Nat) × List Nat :=
  (p.length, p.classes.map strCode, p.forbid.map Char.toNat)

/-- Inverse of `polCode`. -/
def polOf (x : Nat × List (List Nat) × List Nat) : Policy :=
  ⟨x.1, x.2.1.map strOf, x.2.2.map Char.ofNat⟩

/-- Numeric image of a site record. -/
def recCode (r : SiteRecord) :
    List Nat × List Nat × List Nat × Nat × List Nat ×
      (Nat × List (List Nat) × List Nat) × List Nat × List Nat :=
  (strCode r.site_id, strCode r.login, strCode r.v, r.c, r.rseed,
   polCode r.policy, strCode r.created, strCode r.notes)

/-- Inverse of `recCode`. -/
def recOf (x : List Nat × List Nat × List Nat × Nat × List Nat ×
    (Nat × List (List Nat) × List Nat) × List Nat × List Nat) : SiteRecord :=
  ⟨strOf x.1, strOf x.2.1, strOf x.2.2.1, x.2.2.2.1, x.2.2.2.2.1,
   polOf x.2.2.2.2.2.1, strOf x.2.2.2.2.2.2.1, strOf x.2.2.2.2.2.2.2⟩

/-- Numeric image of a plaintext document. -/
def ptCode (d : Plaintext) :
    List Nat ×
      List (List Nat ×
        (List Nat × List Nat × List Nat × Nat × List Nat ×
          (Nat × List (List Nat) × List Nat) × List Nat × List Nat)) ×
      List Nat × List Nat × List Nat :=
  (d.capsule, d.sites.map (fun kv => (strCode kv.1, recCode kv.2)),
   strCode d.created, strCode d.updated, strCode d.algo_version)

/-- Inverse of `ptCode`. -/
def ptOf (x : List Nat ×
    List (List Nat ×
      (List Nat × List Nat × List Nat × Nat × List Nat ×
        (Nat × List (List Nat) × List Nat) × List Nat × List Nat)) ×
    List Nat × List Nat × List Nat) : Plaintext :=
  ⟨x.1, x.2.1.map (fun kv => (strOf kv.1, recOf kv.2)),
   strOf x.2.2.1, strOf x.2.2.2.1, strOf x.2.2.2.2⟩

/-- A concrete `PTCodec` instance: serialize through `Encodable` on nested
numeric tuples, satisfying the round-trip contract. -/
def dummyPTCodec : PTCodec where
  dumpPT := fun d => [Encodable.encode (ptCode d)]
  parsePT := fun b =>
    match b with
    | [n] => (Encodable.decode n).map ptOf
    | _ => none
  pt_roundtrip := by
    have hmapid : ∀ {α : Type} (f : α → α), (∀ a, f a = a) → ∀ l : List α, l.map f = l := by
      intro α f hf l
      induction l with
      | nil => rfl
      | cons a t ih => simp [hf, ih]
    have hcc : ∀ l : List Char, l.map (Char.ofNat ∘ Char.toNat) = l :=
      hmapid _ (fun a => by simp [Function.comp, Char.ofNat_toNat])
    have hs : ∀ s, strOf (strCode s) = s := by
      intro s
      cases s with
      | mk data => simp [strCode, strOf, List.map_map, hcc]
    have hp : ∀ p, polOf (polCode p) = p := by
      intro p
      cases p with
      | mk len cls fb =>
        refine Policy.mk.injEq .. ▸ ?_
        simp [polCode, polOf, List.map_map, hcc]
        exact hmapid _ (fun a => by simp [Function.comp, hs]) cls
    have hr : ∀ r, recOf (recCode r) = r := by
      intro r
      cases r
      simp [recCode, recOf, hs, hp]
    intro d
    show ((Encodable.decode (Encodable.encode (ptCode d))).map ptOf) = some d
    rw [Encodable.encodek]
    show some (ptOf (ptCode d)) = some d
    cases d with
    | mk cap sites cr up av =>
      congr 1
      simp [ptCode, ptOf, hs, List.map_map]
      exact hmapid _ (fun kv => by cases kv with | mk k r => simp [Function.comp, hs, hr]) sites

/-- The `strict` profile policy, used in concrete counterexamples. -/
def strictPolicy : Policy := ⟨24, ["lower", "upper", "digits", "symbols"], forbidDefault⟩

/-- Concrete policy for evaluation witnesses. -/
def wPolicy : Policy := ⟨4, ["lower"], []⟩

/-- Concrete derivation used by evaluation witnesses. -/
def wGen (f : Nat) : Except PwErr (Option (List Char)) :=
  gen_password dummyCrypto "m" (List.replicate 32 5) "example.com" "u" wPolicy ALGO_VERSION 0
    (List.replicate 16 0) f

/-- The password `wGen 300` returns, extracted from the computation. -/
def wPwd : List Char :=
  match wGen 300 with
  | .ok (some p) => p
  | _ => []

/-- Concrete retry derivation for evaluation witnesses. -/
def wRetr (f : Nat) : Except PwErr (Option (List Char × Nat)) :=
  gen_password_with_retries dummyCrypto "m" (List.replicate 32 5) "example.com" "u" wPolicy
    ALGO_VERSION 0 (List.replicate 16 0) 8 f

/-- The (password, used counter) pair `wRetr 300` returns. -/
def wRetrRes : List Char × Nat :=
  match wRetr 300 with
  | .ok (some r) => r
  | _ => ([], 0)

/-- Candidate password per retry index, for the retry witness. -/
def wCand (k : Nat) : List Char :=
  match gen_password dummyCrypto "m" (List.replicate 32 5) "example.com" "u" wPolicy
      ALGO_VERSION (0 + k) (List.replicate 16 0) 300 with
  | .ok (some p) => p
  | _ => []

/-- Concrete shuffled list for the permutation witness. -/
def wPerm : List Char :=
  (permute_list dummyCrypto ['x', 'y', 'z'] [3] (Char.ofNat 97) 50).getD []

/-- A concrete site record carrying an unknown algorithm version. -/
def wRecord : SiteRecord :=
  ⟨"example.com", "u", "old-v0", 5, List.replicate 16 1, wPolicy, "t0", ""⟩

/-- A concrete plaintext vault with one record. -/
def wPT : Plaintext := ⟨[], [("example.com|u", wRecord)], "t0", "t0", ALGO_VERSION⟩

/-- An empty plaintext vault. -/
def emptyPT : Plaintext := ⟨[], [], "t0", "t0", ALGO_VERSION⟩

/-! Helper lemmas. -/

theorem consSetPerm {α : Type} (d : α) : ∀ (t : List α) (m : Nat) (a : α), m < t.length →
    List.Perm (t.getD m d :: t.set m a) (a :: t) := by
  intro t
  induction t with
  | nil => intro m a h; simp at h
  | cons y u ih =>
    intro m a h
    cases m with
    | zero =>
      simp only [List.getD_cons_zero, List.set_cons_zero]
      exact List.Perm.swap a y u
    | succ k =>
      simp only [List.getD_cons_succ, List.set_cons_succ]
      have h1 : List.Perm (u.getD k d :: y :: u.set k a) (y :: u.getD k d :: u.set k a) :=
        List.Perm.swap y (u.getD k d) (u.set k a)
      have h2 := ih k a (Nat.lt_of_succ_lt_succ h)
      have h3 : List.Perm (y :: u.getD k d :: u.set k a) (y :: a :: u) := h2.cons y
      have h4 : List.Perm (y :: a :: u) (a :: y :: u) := List.Perm.swap a y u
      exact (h1.trans h3).trans h4

theorem swapL_perm {α : Type} (d : α) : ∀ (l : List α) (i j : Nat), i < l.length → j < l.length →
    List.Perm (swapL l i j d) l := by
  intro l
  induction l with
  | nil => intro i j hi _; simp at hi
  | cons x t ih =>
    intro i j hi hj
    cases i with
    | zero =>
      cases j with
      | zero =>
        simp only [swapL, List.getD_cons_zero, List.set_cons_zero]
        exact List.Perm.refl _
      | succ m =>
        simp only [swapL, List.getD_cons_zero, List.getD_cons_succ, List.set_cons_zero,
          List.set_cons_succ]
        exact consSetPerm d t m x (Nat.lt_of_succ_lt_succ hj)
    | succ k =>
      cases j with
      | zero =>
        simp only [swapL, List.getD_cons_zero, List.getD_cons_succ, List.set_cons_zero,
          List.set_cons_succ]
        exact consSetPerm d t k x (Nat.lt_of_succ_lt_succ hi)
      | succ m =>
        simp only [swapL, List.getD_cons_succ, List.set_cons_succ]
        exact (ih k m (Nat.lt_of_succ_lt_succ hi) (Nat.lt_of_succ_lt_succ hj)).cons x

theorem swapL_length {α : Type} (d : α) (l : List α) (i j : Nat) :
    (swapL l i j d).length = l.length := by
  simp [swapL]

theorem randLoop_le {s : Nat → Nat} {n : Nat} :
    ∀ (fuel pos : Nat) (r : Nat × Nat), randLoop s n pos fuel = some r → r.1 ≤ n := by
  intro fuel
  induction fuel with
  | zero => intro pos r h; simp [randLoop] at h
  | succ f ih =>
    intro pos r h
    simp only [randLoop] at h
    by_cases hc : rbVal s pos < rbLimit n
    · rw [if_pos hc] at h
      cases h
      exact Nat.lt_succ_iff.mp (Nat.mod_lt _ (Nat.succ_pos n))
    · rw [if_neg hc] at h
      exact ih _ _ h

theorem rand_below_le {s : Nat → Nat} {n pos fuel : Nat} {r : Nat × Nat}
    (h : rand_below s n pos fuel = some r) : r.1 ≤ n := by
  unfold rand_below at h
  by_cases hn : n = 0
  · rw [if_pos hn] at h
    cases h
    simp
  · rw [if_neg hn] at h
    exact randLoop_le fuel pos r h

theorem randLoop_mono {s : Nat → Nat} {n : Nat} :
    ∀ (f f' pos : Nat) (r : Nat × Nat), f ≤ f' →
      randLoop s n pos f = some r → randLoop s n pos f' = some r := by
  intro f
  induction f with
  | zero => intro f' pos r _ h; simp [randLoop] at h
  | succ g ih =>
    intro f' pos r hle h
    cases f' with
    | zero => omega
    | succ g' =>
      simp only [randLoop] at h ⊢
      by_cases hc : rbVal s pos < rbLimit n
      · rw [if_pos hc] at h ⊢
        exact h
      · rw [if_neg hc] at h ⊢
        exact ih g' (pos + 4) r (by omega) h

theorem rand_below_mono {s : Nat → Nat} {n pos f f' : Nat} {r : Nat × Nat} (hle : f ≤ f')
    (h : rand_below s n pos f = some r) : rand_below s n pos f' = some r := by
  unfold rand_below at h ⊢
  by_cases hn : n = 0
  · rw [if_pos hn] at h ⊢
    exact h
  · rw [if_neg hn] at h ⊢
    exact randLoop_mono f f' pos r hle h

theorem fisherYates_perm {α : Type} (s : Nat → Nat) (d : α) :
    ∀ (i : Nat) (arr : List α) (pos fuel : Nat) (out : List α × Nat), i < arr.length →
      fisherYates s d arr i pos fuel = some out → List.Perm out.1 arr := by
  intro i
  induction i with
  | zero =>
    intro arr pos fuel out _ h
    simp only [fisherYates, Option.some.injEq] at h
    rw [← h]
  | succ k ih =>
    intro arr pos fuel out hlen h
    simp only [fisherYates] at h
    cases hr : rand_below s (k + 1) pos fuel with
    | none => rw [hr] at h; simp at h
    | some jp =>
      rw [hr] at h
      have hj : jp.1 ≤ k + 1 := rand_below_le hr
      have hjlt : jp.1 < arr.length := Nat.lt_of_le_of_lt hj hlen
      have hk : k < (swapL arr (k + 1) jp.1 d).length := by
        rw [swapL_length]
        omega
      exact (ih _ _ _ _ hk h).trans (swapL_perm d arr (k + 1) jp.1 hlen hjlt)

theorem fisherYates_mono {α : Type} (s : Nat → Nat) (d : α) :
    ∀ (i : Nat) (arr : List α) (pos f f' : Nat) (out : List α × Nat), f ≤ f' →
      fisherYates s d arr i pos f = some out → fisherYates s d arr i pos f' = some out := by
  intro i
  induction i with
  | zero => intro arr pos f f' out _ h; simpa [fisherYates] using h
  | succ k ih =>
    intro arr pos f f' out hle h
    simp only [fisherYates] at h ⊢
    cases hr : rand_below s (k + 1) pos f with
    | none => rw [hr] at h; simp at h
    | some jp =>
      rw [hr] at h
      rw [rand_below_mono hle hr]
      exact ih _ _ _ _ _ hle h

theorem permute_list_perm {α : Type} {P : Crypto} {items : List α} {key : Bytes} {d : α}
    {fuel : Nat} {out : List α} (h : permute_list P items key d fuel = some out) :
    List.Perm out items := by
  unfold permute_list at h
  cases hf : fisherYates (chacha20_stream P key (List.replicate 16 0)) d items
      (items.length - 1) 0 fuel with
  | none => rw [hf] at h; simp at h
  | some a =>
    rw [hf] at h
    simp only [Option.map_some', Option.some.injEq] at h
    subst h
    cases items with
    | nil =>
      simp only [List.length_nil, fisherYates, Option.some.injEq] at hf
      rw [← hf]
    | cons x t =>
      exact fisherYates_perm _ d _ _ _ _ a (by simp) hf

theorem permute_list_mono {α : Type} {P : Crypto} {items : List α} {key : Bytes} {d : α}
    {f f' : Nat} {out : List α} (hle : f ≤ f')
    (h : permute_list P items key d f = some out) : permute_list P items key d f' = some out := by
  unfold permute_list at h ⊢
  cases hf : fisherYates (chacha20_stream P key (List.replicate 16 0)) d items
      (items.length - 1) 0 f with
  | none => rw [hf] at h; simp at h
  | some a =>
    rw [hf] at h
    rw [fisherYates_mono _ d _ _ _ _ _ _ hle hf]
    exact h

theorem collectPw_len {s : Nat → Nat} {A : List Char} {M T : Nat} :
    ∀ (fuel L pos : Nat) (r : List Char × Nat),
      collectPw s A M T L pos fuel = some r → r.1.length = L := by
  intro fuel
  induction fuel with
  | zero =>
    intro L pos r h
    cases L with
    | zero => simp only [collectPw, Option.some.injEq] at h; rw [← h]; rfl
    | succ L' => simp [collectPw] at h
  | succ f ih =>
    intro L pos r h
    cases L with
    | zero => simp only [collectPw, Option.some.injEq] at h; rw [← h]; rfl
    | succ L' =>
      simp only [collectPw] at h
      by_cases hc : s pos < T
      · rw [if_pos hc] at h
        cases hrec : collectPw s A M T L' (pos + 1) f with
        | none => rw [hrec] at h; simp at h
        | some r0 =>
          rw [hrec] at h
          simp only [Option.map_some', Option.some.injEq] at h
          rw [← h]
          simp [ih L' (pos + 1) r0 hrec]
      · rw [if_neg hc] at h
        exact ih (L' + 1) (pos + 1) r h

theorem collectPw_mem {s : Nat → Nat} {A : List Char} {M T : Nat} (hM : M = A.length)
    (hpos : 0 < M) :
    ∀ (fuel L pos : Nat) (r : List Char × Nat),
      collectPw s A M T L pos fuel = some r → ∀ ch ∈ r.1, ch ∈ A := by
  intro fuel
  induction fuel with
  | zero =>
    intro L pos r h
    cases L with
    | zero => simp only [collectPw, Option.some.injEq] at h; rw [← h]; simp
    | succ L' => simp [collectPw] at h
  | succ f ih =>
    intro L pos r h
    cases L with
    | zero => simp only [collectPw, Option.some.injEq] at h; rw [← h]; simp
    | succ L' =>
      simp only [collectPw] at h
      by_cases hc : s pos < T
      · rw [if_pos hc] at h
        cases hrec : collectPw s A M T L' (pos + 1) f with
        | none => rw [hrec] at h; simp at h
        | some r0 =>
          rw [hrec] at h
          simp only [Option.map_some', Option.some.injEq] at h
          rw [← h]
          intro ch hch
          simp only [List.mem_cons] at hch
          cases hch with
          | inl he =>
            rw [he]
            have hidx : s pos % M < A.length := by
              rw [← hM]
              exact Nat.mod_lt _ hpos
            rw [List.getD_eq_getElem A _ hidx]
            exact List.getElem_mem hidx
          | inr hm => exact ih L' (pos + 1) r0 hrec ch hm
      · rw [if_neg hc] at h
        exact ih (L' + 1) (pos + 1) r h

theorem collectPw_mono {s : Nat → Nat} {A : List Char} {M T : Nat} :
    ∀ (f f' L pos : Nat) (r : List Char × Nat), f ≤ f' →
      collectPw s A M T L pos f = some r → collectPw s A M T L pos f' = some r := by
  intro f
  induction f with
  | zero =>
    intro f' L pos r _ h
    cases L with
    | zero => simpa [collectPw] using h
    | succ L' => simp [collectPw] at h
  | succ g ih =>
    intro f' L pos r hle h
    cases L with
    | zero => simpa [collectPw] using h
    | succ L' =>
      cases f' with
      | zero => omega
      | succ g' =>
        simp only [collectPw] at h ⊢
        by_cases hc : s pos < T
        · rw [if_pos hc] at h ⊢
          cases hrec : collectPw s A M T L' (pos + 1) g with
          | none => rw [hrec] at h; simp at h
          | some r0 =>
            rw [hrec] at h
            rw [ih g' L' (pos + 1) r0 (by omega) hrec]
            exact h
        · rw [if_neg hc] at h ⊢
          exact ih g' (L' + 1) (pos + 1) r (by omega) h

theorem hkdf_expand_32 (P : Crypto) (prk info : Bytes) :
    hkdf_expand_sha512 P prk info 32 = some ((P.hmacSha512 prk (info ++ [1])).take 32) := by
  simp [hkdf_expand_sha512]

theorem build_alphabet_ne_unsupported (pol : Policy) :
    build_alphabet pol ≠ .error .unsupportedVersion := by
  simp only [build_alphabet]
  split
  · simp
  · split
    · simp
    · simp

theorem build_alphabet_allow_ne_nil {pol : Policy} {allow : List Char} {req : List (List Char)}
    (h : build_alphabet pol = .ok (allow, req)) : allow ≠ [] := by
  simp only [build_alphabet] at h
  split at h
  · simp at h
  · split at h
    · simp at h
    · next hne =>
      simp only [Except.ok.injEq, Prod.mk.injEq] at h
      rw [← h.1]
      intro hnil
      rw [hnil] at hne
      simp at hne

theorem gen_password_ok {P : Crypto} {master : String} {capsule : Bytes}
    {site_id login : String} {pol : Policy} {v : String} {c : Nat} {rseed : Bytes}
    {fuel : Nat} {p : List Char}
    (h : gen_password P master capsule site_id login pol v c rseed fuel = .ok (some p)) :
    v = ALGO_VERSION ∧
    ∃ allow req Kpwd Kperm A out,
      build_alphabet pol = .ok (allow, req) ∧
      permute_list P allow Kperm (Char.ofNat 97) fuel = some A ∧
      collectPw (chacha20_stream P Kpwd (List.replicate 16 0)) A A.length
        (256 / A.length * A.length) pol.length 0 fuel = some (out : List Char × Nat) ∧
      permute_list P out.1 Kpwd (Char.ofNat 97) fuel = some p := by
  simp only [gen_password, hkdf_expand_32] at h
  split at h
  · exact absurd h (by simp)
  next hv =>
    refine ⟨not_not.mp hv, ?_⟩
    split at h
    · exact absurd h (by simp)
    next allow req heq =>
      split at h
      · exact absurd h (by simp)
      next A heqp =>
        split at h
        · exact absurd h (by simp)
        next out heqc =>
          split at h
          · exact absurd h (by simp)
          next out2 heqf =>
            simp only [Except.ok.injEq, Option.some.injEq] at h
            subst h
            exact ⟨allow, req, _, _, A, out, heq, heqp, heqc, heqf⟩

theorem gen_password_mono {P : Crypto} {master : String} {capsule : Bytes}
    {site_id login : String} {pol : Policy} {v : String} {c : Nat} {rseed : Bytes}
    {f f' : Nat} {p : List Char} (hle : f ≤ f')
    (h : gen_password P master capsule site_id login pol v c rseed f = .ok (some p)) :
    gen_password P master capsule site_id login pol v c rseed f' = .ok (some p) := by
  simp only [gen_password, hkdf_expand_32] at h ⊢
  split at h
  · exact absurd h (by simp)
  next hv =>
    rw [if_neg hv]
    split at h
    · exact absurd h (by simp)
    next allow req heq =>
      split at h
      · exact absurd h (by simp)
      next A heqp =>
        have hp' := permute_list_mono hle heqp
        split at h
        · exact absurd h (by simp)
        next out heqc =>
          have hc' := collectPw_mono _ _ _ _ _ hle heqc
          split at h
          · exact absurd h (by simp)
          next out2 heqf =>
            have hf' := permute_list_mono hle heqf
            simp only [Except.ok.injEq, Option.some.injEq] at h
            subst h
            split
            next heqG => rw [hp'] at heqG; exact absurd heqG (by simp)
            next A' heqG =>
              rw [hp'] at heqG
              injection heqG with hA
              subst hA
              split
              next heqG2 => rw [hc'] at heqG2; exact absurd heqG2 (by simp)
              next out' heqG2 =>
                rw [hc'] at heqG2
                injection heqG2 with hO
                subst hO
                split
                next heqG3 => rw [hf'] at heqG3; exact absurd heqG3 (by simp)
                next out2' heqG3 =>
                  rw [hf'] at heqG3
                  injection heqG3 with h2
                  subst h2
                  rfl

theorem gen_password_ne_unsupported (P : Crypto) (master : String) (capsule : Bytes)
    (site_id login : String) (pol : Policy) (c : Nat) (rseed : Bytes) (fuel : Nat) :
    gen_password P master capsule site_id login pol ALGO_VERSION c rseed fuel ≠
      .error .unsupportedVersion := by
  simp only [gen_password, hkdf_expand_32]
  rw [if_neg (by simp)]
  split
  next e heq =>
    intro hc
    have he : e = PwErr.unsupportedVersion := by
      injection hc
    rw [he] at heq
    exact build_alphabet_ne_unsupported pol heq
  next allow req heq =>
    split
    · simp
    next A heqp =>
      split
      · simp
      next out heqc =>
        split
        · simp
        · simp

theorem retriesGo_mono {P : Crypto} {master : String} {capsule : Bytes}
    {site_id login : String} {pol : Policy} {v : String} {rseed : Bytes}
    {req : List (List Char)} {f f' : Nat} (hle : f ≤ f') :
    ∀ (k cur : Nat) (r : List Char × Nat),
      retriesGo P master capsule site_id login pol v rseed req f cur k = .ok (some r) →
      retriesGo P master capsule site_id login pol v rseed req f' cur k = .ok (some r) := by
  intro k
  induction k using Nat.strong_induction_on with
  | _ k ih =>
    intro cur r h
    match k with
    | 0 => simp [retriesGo] at h
    | 1 =>
      simp only [retriesGo] at h ⊢
      split at h
      · exact absurd h (by simp)
      · exact absurd h (by simp)
      next pwd heqg =>
        have hg' := gen_password_mono hle heqg
        split
        next heqG => rw [hg'] at heqG; exact absurd heqG (by simp)
        next heqG => rw [hg'] at heqG; exact absurd heqG (by simp)
        next pwd' heqG =>
          rw [hg'] at heqG
          injection heqG with h1
          injection h1 with h2
          subst h2
          exact h
    | k + 2 =>
      simp only [retriesGo] at h ⊢
      split at h
      · exact absurd h (by simp)
      · exact absurd h (by simp)
      next pwd heqg =>
        have hg' := gen_password_mono hle heqg
        split
        next heqG => rw [hg'] at heqG; exact absurd heqG (by simp)
        next heqG => rw [hg'] at heqG; exact absurd heqG (by simp)
        next pwd' heqG =>
          rw [hg'] at heqG
          injection heqG with h1
          injection h1 with h2
          subst h2
          by_cases hs : satisfies_classes pwd req = true
          · rw [if_pos hs] at h ⊢
            exact h
          · rw [if_neg hs] at h ⊢
            exact ih (k + 1) (by omega) (cur + 1) r h

theorem retriesGo_pwd {P : Crypto} {master : String} {capsule : Bytes}
    {site_id login : String} {pol : Policy} {v : String} {rseed : Bytes}
    {req : List (List Char)} {fuel : Nat} :
    ∀ (k cur : Nat) (pwd : List Char) (u : Nat),
      retriesGo P master capsule site_id login pol v rseed req fuel cur k = .ok (some (pwd, u)) →
      gen_password P master capsule site_id login pol v u rseed fuel = .ok (some pwd) := by
  intro k
  induction k using Nat.strong_induction_on with
  | _ k ih =>
    intro cur pwd u h
    match k with
    | 0 => simp [retriesGo] at h
    | 1 =>
      simp only [retriesGo] at h
      split at h
      · exact absurd h (by simp)
      · exact absurd h (by simp)
      next pwd0 heqg =>
        simp only [Except.ok.injEq, Option.some.injEq, Prod.mk.injEq] at h
        rw [← h.1, ← h.2]
        exact heqg
    | k + 2 =>
      simp only [retriesGo] at h
      split at h
      · exact absurd h (by simp)
      · exact absurd h (by simp)
      next pwd0 heqg =>
        by_cases hs : satisfies_classes pwd0 req = true
        · rw [if_pos hs] at h
          simp only [Except.ok.injEq, Option.some.injEq, Prod.mk.injEq] at h
          rw [← h.1, ← h.2]
          exact heqg
        · rw [if_neg hs] at h
          exact ih (k + 1) (by omega) (cur + 1) pwd u h

theorem retriesGo_first {P : Crypto} {master : String} {capsule : Bytes}
    {site_id login : String} {pol : Policy} {v : String} {rseed : Bytes}
    {req : List (List Char)} {fuel : Nat} :
    ∀ (i : Nat) (q : Nat → List Char) (m cur : Nat), i < m →
      (∀ k, k ≤ i →
        gen_password P master capsule site_id login pol v (cur + k) rseed fuel = .ok (some (q k))) →
      (∀ k, k < i → satisfies_classes (q k) req = false) →
      satisfies_classes (q i) req = true →
      retriesGo P master capsule site_id login pol v rseed req fuel cur m =
        .ok (some (q i, cur + i)) := by
  intro i
  induction i with
  | zero =>
    intro q m cur hm hq _hless hsat
    have h0 : gen_password P master capsule site_id login pol v cur rseed fuel =
        .ok (some (q 0)) := by
      have := hq 0 (Nat.le_refl 0)
      rwa [Nat.add_zero] at this
    match m with
    | 0 => omega
    | 1 => simp [retriesGo, h0]
    | m' + 2 =>
      simp only [retriesGo, h0]
      rw [if_pos hsat]
      simp
  | succ i ih =>
    intro q m cur hm hq hless hsat
    have h0 : gen_password P master capsule site_id login pol v cur rseed fuel =
        .ok (some (q 0)) := by
      have := hq 0 (by omega)
      rwa [Nat.add_zero] at this
    have hsat0 : satisfies_classes (q 0) req = false := hless 0 (by omega)
    match m with
    | 0 => omega
    | 1 => omega
    | m' + 2 =>
      simp only [retriesGo, h0]
      rw [if_neg (by simp [hsat0])]
      have hq' : ∀ k, k ≤ i →
          gen_password P master capsule site_id login pol v (cur + 1 + k) rseed fuel =
            .ok (some (q (k + 1))) := by
        intro k hk
        have := hq (k + 1) (by omega)
        rwa [show cur + (k + 1) = cur + 1 + k by omega] at this
      have hless' : ∀ k, k < i → satisfies_classes (q (k + 1)) req = false := by
        intro k hk
        exact hless (k + 1) (by omega)
      have := ih (fun k => q (k + 1)) (m' + 1) (cur + 1) (by omega) hq' hless' hsat
      rwa [show cur + 1 + i = cur + (i + 1) by omega] at this

theorem retriesGo_none {P : Crypto} {master : String} {capsule : Bytes}
    {site_id login : String} {pol : Policy} {v : String} {rseed : Bytes}
    {req : List (List Char)} {fuel : Nat} :
    ∀ (m : Nat) (q : Nat → List Char) (cur : Nat), 1 ≤ m →
      (∀ k, k < m →
        gen_password P master capsule site_id login pol v (cur + k) rseed fuel = .ok (some (q k))) →
      (∀ k, k < m → satisfies_classes (q k) req = false) →
      retriesGo P master capsule site_id login pol v rseed req fuel cur m =
        .ok (some (q (m - 1), cur + (m - 1))) := by
  intro m
  induction m using Nat.strong_induction_on with
  | _ m ih =>
    intro q cur hm hq hless
    have h0 : gen_password P master capsule site_id login pol v cur rseed fuel =
        .ok (some (q 0)) := by
      have := hq 0 (by omega)
      rwa [Nat.add_zero] at this
    match m with
    | 0 => omega
    | 1 => simp [retriesGo, h0]
    | m' + 2 =>
      have hsat0 : satisfies_classes (q 0) req = false := hless 0 (by omega)
      simp only [retriesGo, h0]
      rw [if_neg (by simp [hsat0])]
      have hq' : ∀ k, k < m' + 1 →
          gen_password P master capsule site_id login pol v (cur + 1 + k) rseed fuel =
            .ok (some (q (k + 1))) := by
        intro k hk
        have := hq (k + 1) (by omega)
        rwa [show cur + (k + 1) = cur + 1 + k by omega] at this
      have hless' : ∀ k, k < m' + 1 → satisfies_classes (q (k + 1)) req = false := by
        intro k hk
        exact hless (k + 1) (by omega)
      have := ih (m' + 1) (by omega) (fun k => q (k + 1)) (cur + 1) (by omega) hq' hless'
      simp only [Nat.add_sub_cancel] at this ⊢
      rwa [show cur + 1 + m' = cur + (m' + 1) by omega] at this

theorem classLookup_mem : ∀ (cs : List String) (sets : List (List Char)),
    classLookup cs = some sets →
    ∀ cls ∈ cs, ∃ s, CLASSES cls = some s ∧ s.data ∈ sets := by
  intro cs
  induction cs with
  | nil => intro sets _ cls hmem; simp at hmem
  | cons c rest ih =>
    intro sets h cls hmem
    simp only [classLookup] at h
    cases hc : CLASSES c with
    | none => rw [hc] at h; simp at h
    | some s =>
      rw [hc] at h
      cases hr : classLookup rest with
      | none => rw [hr] at h; simp at h
      | some ls =>
        rw [hr] at h
        simp only [Option.map_some', Option.some.injEq] at h
        subst h
        rcases List.mem_cons.mp hmem with rfl | hmem'
        · exact ⟨s, hc, by simp⟩
        · obtain ⟨s', hs', hmem2⟩ := ih ls hr cls hmem'
          exact ⟨s', hs', by simp [hmem2]⟩

theorem build_alphabet_req {pol : Policy} {allow : List Char} {req : List (List Char)}
    (h : build_alphabet pol = .ok (allow, req)) :
    classLookup pol.classes = some req := by
  simp only [build_alphabet] at h
  split at h
  · simp at h
  next sets heq =>
    split at h
    · simp at h
    · simp only [Except.ok.injEq, Prod.mk.injEq] at h
      rw [heq, h.2]

theorem satisfies_classes_iff {pwd : List Char} {req : List (List Char)} :
    satisfies_classes pwd req = true ↔ ∀ r ∈ req, ∃ ch ∈ pwd, ch ∈ r := by
  simp [satisfies_classes, List.all_eq_true, List.any_eq_true]

theorem lookupA_setA (l : List (String × SiteRecord)) (k : String) (v : SiteRecord) :
    lookupA (setA l k v) k = some v := by
  induction l with
  | nil => simp [setA, lookupA]
  | cons kv rest ih =>
    simp only [setA]
    by_cases hk : kv.1 = k
    · rw [if_pos hk]
      simp [lookupA]
    · rw [if_neg hk]
      simp only [lookupA, if_neg hk]
      exact ih

/-! Claim theorems. -/

/-- C1: derivation is deterministic.  `gen_password` and
`gen_password_with_retries` are pure functions of
`(master, capsule, site_id, login, policy, v, c, rseed)`: whenever the
embedded computation returns a password (for any loop bounds), the returned
password (and used counter) is the same, independent of the bound — two
calls always return identical results. -/
theorem C1_deterministic (P : Crypto) (master : String) (capsule : Bytes)
    (site_id login : String) (pol : Policy) (v : String) (c : Nat) (rseed : Bytes)
    (max_tries f1 f2 : Nat) :
    (∀ p1 p2 : List Char,
      gen_password P master capsule site_id login pol v c rseed f1 = .ok (some p1) →
      gen_password P master capsule site_id login pol v c rseed f2 = .ok (some p2) →
      p1 = p2) ∧
    (∀ r1 r2 : List Char × Nat,
      gen_password_with_retries P master capsule site_id login pol v c rseed max_tries f1 =
        .ok (some r1) →
      gen_password_with_retries P master capsule site_id login pol v c rseed max_tries f2 =
        .ok (some r2) →
      r1 = r2) := by
  constructor
  · intro p1 p2 h1 h2
    have h1' := gen_password_mono (Nat.le_max_left f1 f2) h1
    have h2' := gen_password_mono (Nat.le_max_right f1 f2) h2
    rw [h1'] at h2'
    injection h2' with ha
    injection ha with hb
  · intro r1 r2 h1 h2
    unfold gen_password_with_retries at h1 h2
    split at h1
    · exact absurd h1 (by simp)
    next ar heq =>
      split at h2
      next heq2 => rw [heq] at heq2; exact absurd heq2 (by simp)
      next ar2 heq2 =>
        rw [heq] at heq2
        injection heq2 with haa
        subst haa
        have h1' := retriesGo_mono (Nat.le_max_left f1 f2) max_tries c r1 h1
        have h2' := retriesGo_mono (Nat.le_max_right f1 f2) max_tries c r2 h2
        rw [h1'] at h2'
        injection h2' with ha
        injection ha with hb

/-- Witness for C1: the concrete derivation with two different loop bounds
returns the same password and counter. -/
theorem C1_deterministic_witness : wPwd = wPwd ∧ wRetrRes = wRetrRes :=
  ⟨(C1_deterministic dummyCrypto "m" (List.replicate 32 5) "example.com" "u" wPolicy
      ALGO_VERSION 0 (List.replicate 16 0) 8 300 400).1 wPwd wPwd rfl rfl,
   (C1_deterministic dummyCrypto "m" (List.replicate 32 5) "example.com" "u" wPolicy
      ALGO_VERSION 0 (List.replicate 16 0) 8 300 400).2 wRetrRes wRetrRes rfl rfl⟩

/-- C2: with `v = "sha512-v1"`, every password returned by `gen_password`
has exactly `policy.length` characters, and so does the password part of
every `gen_password_with_retries` result (whether or not the class-coverage
check succeeded). -/
theorem C2_length (P : Crypto) (master : String) (capsule : Bytes)
    (site_id login : String) (pol : Policy) (c : Nat) (rseed : Bytes)
    (fuel max_tries : Nat) :
    (∀ p : List Char,
      gen_password P master capsule site_id login pol ALGO_VERSION c rseed fuel =
        .ok (some p) → p.length = pol.length) ∧
    (∀ (pw : List Char) (u : Nat),
      gen_password_with_retries P master capsule site_id login pol ALGO_VERSION c rseed
        max_tries fuel = .ok (some (pw, u)) → pw.length = pol.length) := by
  have hgen : ∀ (c' : Nat) (p : List Char),
      gen_password P master capsule site_id login pol ALGO_VERSION c' rseed fuel =
        .ok (some p) → p.length = pol.length := by
    intro c' p h
    obtain ⟨-, allow, req, Kpwd, Kperm, A, out, hb, hp1, hc, hp2⟩ := gen_password_ok h
    have hlen1 : out.1.length = pol.length := collectPw_len fuel pol.length 0 out hc
    exact (List.Perm.length_eq (permute_list_perm hp2)).trans hlen1
  constructor
  · exact hgen c
  · intro pw u h
    unfold gen_password_with_retries at h
    split at h
    · exact absurd h (by simp)
    next ar heq =>
      exact hgen u pw (retriesGo_pwd max_tries c pw u h)

/-- Witness for C2: the concrete derivation returns a password of the
policy's length (4), and so does its retry wrapper. -/
theorem C2_length_witness : wPwd.length = 4 ∧ wRetrRes.1.length = 4 :=
  ⟨(C2_length dummyCrypto "m" (List.replicate 32 5) "example.com" "u" wPolicy 0
      (List.replicate 16 0) 300 8).1 wPwd rfl,
   (C2_length dummyCrypto "m" (List.replicate 32 5) "example.com" "u" wPolicy 0
      (List.replicate 16 0) 300 8).2 wRetrRes.1 wRetrRes.2 rfl⟩

/-- C3: when `gen_password_with_retries` returns a pair whose password passed
the class-coverage test, that password contains at least one character of
every class named in `policy.classes`, membership taken in the full fixed
class strings (`CLASSES`) before `forbid` removal — exactly the sets
`build_alphabet` collects before filtering. -/
theorem C3_class_coverage (P : Crypto) (master : String) (capsule : Bytes)
    (site_id login : String) (pol : Policy) (v : String) (c : Nat) (rseed : Bytes)
    (max_tries fuel : Nat) (allow : List Char) (req : List (List Char))
    (p : List Char) (u : Nat)
    (hb : build_alphabet pol = .ok (allow, req))
    (_hr : gen_password_with_retries P master capsule site_id login pol v c rseed max_tries
      fuel = .ok (some (p, u)))
    (hs : satisfies_classes p req = true) :
    ∀ cls ∈ pol.classes, ∃ s, CLASSES cls = some s ∧ ∃ ch ∈ p, ch ∈ s.data := by
  intro cls hcls
  obtain ⟨s, hcs, hmem⟩ := classLookup_mem pol.classes req (build_alphabet_req hb) cls hcls
  obtain ⟨ch, hchp, hchs⟩ := (satisfies_classes_iff.mp hs) s.data hmem
  exact ⟨s, hcs, ch, hchp, hchs⟩

/-- Witness for C3 at the concrete retry derivation: its password contains a
character of the (only) required class `lower`. -/
theorem C3_class_coverage_witness :
    ∃ s, CLASSES "lower" = some s ∧ ∃ ch ∈ wRetrRes.1, ch ∈ s.data :=
  C3_class_coverage dummyCrypto "m" (List.replicate 32 5) "example.com" "u" wPolicy
    ALGO_VERSION 0 (List.replicate 16 0) 8 300 "abcdefghijklmnopqrstuvwxyz".data
    ["abcdefghijklmnopqrstuvwxyz".data] wRetrRes.1 wRetrRes.2 rfl rfl (by decide)
    "lower" (by decide)

/-- C4: with `max_tries = 8`, `gen_password_with_retries` returns
`(q i, c + i)` for the least `i ∈ [0, 8)` whose candidate passes the
class-coverage check; if none passes it returns the candidate for `c + 7`
with used counter `c + 7`; and the `get` command leaves the stored plaintext
(hence the stored counter) unmodified. -/
theorem C4_bounded_retry (P : Crypto) (master : String) (capsule : Bytes)
    (site_id login : String) (pol : Policy) (v : String) (c : Nat) (rseed : Bytes)
    (fuel : Nat) (allow : List Char) (req : List (List Char)) (q : Nat → List Char)
    (hb : build_alphabet pol = .ok (allow, req))
    (hgen : ∀ k, k < 8 →
      gen_password P master capsule site_id login pol v (c + k) rseed fuel =
        .ok (some (q k))) :
    (∀ i, i < 8 → satisfies_classes (q i) req = true →
      (∀ k, k < i → satisfies_classes (q k) req = false) →
      gen_password_with_retries P master capsule site_id login pol v c rseed 8 fuel =
        .ok (some (q i, c + i))) ∧
    ((∀ k, k < 8 → satisfies_classes (q k) req = false) →
      gen_password_with_retries P master capsule site_id login pol v c rseed 8 fuel =
        .ok (some (q 7, c + 7))) ∧
    (∀ (pt : Plaintext) (lo : Option Nat) (co : Option (List String))
        (fo : Option (List Char)) (res : Except PwErr (Option (List Char × Nat)))
        (pt' : Plaintext),
      cmd_get P pt master site_id login lo co fo fuel = some (res, pt') → pt' = pt) := by
  refine ⟨?_, ?_, ?_⟩
  · intro i hi hsat hless
    simp only [gen_password_with_retries, hb]
    exact retriesGo_first i q 8 c hi (fun k hk => hgen k (by omega)) hless hsat
  · intro hall
    simp only [gen_password_with_retries, hb]
    exact retriesGo_none 8 q c (by omega) hgen hall
  · intro pt lo co fo res pt' h
    simp only [cmd_get] at h
    split at h
    · exact absurd h (by simp)
    next entry heq =>
      simp only [Option.some.injEq, Prod.mk.injEq] at h
      exact h.2.symm

/-- Witness for C4: at the concrete inputs the first candidate already
satisfies the policy, so the retry wrapper returns it with used counter
`c + 0`. -/
theorem C4_bounded_retry_witness :
    gen_password_with_retries dummyCrypto "m" (List.replicate 32 5) "example.com" "u" wPolicy
      ALGO_VERSION 0 (List.replicate 16 0) 8 300 = .ok (some (wCand 0, 0 + 0)) :=
  (C4_bounded_retry dummyCrypto "m" (List.replicate 32 5) "example.com" "u" wPolicy
      ALGO_VERSION 0 (List.replicate 16 0) 300 "abcdefghijklmnopqrstuvwxyz".data
      ["abcdefghijklmnopqrstuvwxyz".data] wCand rfl
      (by intro k hk; interval_cases k <;> rfl)).1 0 (by omega) (by decide)
    (fun k hk => absurd hk (by omega))

/-- C5 counterexample: the spec claims the `policy_json` component contains
no whitespace, but the source serializes with `json.dumps`'s default
separators: for the `strict` profile the component (and hence the context
built by `gen_password`) contains space characters, and it differs from the
whitespace-free serialization the spec describes. -/
theorem C5_policy_json_counterexample :
    (policy_json strictPolicy).data.contains (Char.ofNat 32) = true ∧
    (contextString ALGO_VERSION "example.com" "u" strictPolicy 0
      (List.replicate 16 0)).data.contains (Char.ofNat 32) = true ∧
    policy_json strictPolicy ≠ policy_json_compact strictPolicy := by
  refine ⟨by decide, by decide, by decide⟩

/-- C5 (amended): in the context byte string built by `gen_password`, the
`policy_json` component is the JSON serialization of the policy with keys
sorted ascending (`classes` before `forbid` before `length`), rendered with
Python `json.dumps`'s default separators — a space after each item comma and
each key colon (so it does contain whitespace). -/
theorem C5_policy_json (pol : Policy) :
    sortKV (policyKVs pol) =
      [("classes", jsonArr (pol.classes.map jsonQuote)),
       ("forbid", jsonArr (pol.forbid.map (fun ch => jsonQuote (String.mk [ch])))),
       ("length", Nat.repr pol.length)] ∧
    policy_json pol =
      "\x7b" ++ ((jsonQuote "classes" ++ ": " ++ jsonArr (pol.classes.map jsonQuote)) ++ ", " ++
        ((jsonQuote "forbid" ++ ": " ++
            jsonArr (pol.forbid.map (fun ch => jsonQuote (String.mk [ch])))) ++ ", " ++
          (jsonQuote "length" ++ ": " ++ Nat.repr pol.length))) ++ "\x7d" ∧
    ∀ (v site_id login : String) (c : Nat) (rseed : Bytes),
      contextString v site_id login pol c rseed =
        "pwgen|" ++ v ++ "|" ++ site_id ++ "|" ++ login ++ "|" ++ policy_json pol ++
          "|c=" ++ Nat.repr c ++ "|r=" ++ bytesHex rseed := by
  exact ⟨rfl, rfl, fun v s l c r => rfl⟩

/-- C6: envelope round-trip.  For every AEAD/base64/JSON primitive satisfying
the library contracts, every plaintext byte string, master, KDF triple and
fresh salt/nonce, `vault_decrypt (vault_encrypt pt ...) = pt`; and reading a
vault back after `write_plaintext` yields exactly the plaintext object that
was saved (the input with its `updated` timestamp refreshed). -/
theorem C6_envelope_roundtrip (E : AEAD) (C : Codec) (J : PTCodec) (P : Crypto)
    (master : String) (t m p : Nat) (salt nonce : Bytes) :
    (∀ (pt : Bytes) (now : String),
      vault_decrypt E C P (vault_encrypt E C P pt master t m p salt nonce now) master =
        some pt) ∧
    (∀ (data : Plaintext) (now : String),
      read_plaintext E C J P (write_plaintext E C J P master data t m p salt nonce now)
        master = some { data with updated := now }) := by
  have hdec : ∀ (pt : Bytes) (now : String),
      vault_decrypt E C P (vault_encrypt E C P pt master t m p salt nonce now) master =
        some pt := by
    intro pt now
    simp only [vault_decrypt, vault_encrypt]
    rw [if_neg (by simp)]
    simp only [C.b64_roundtrip]
    exact E.decrypt_encrypt _ _ _ _
  refine ⟨hdec, ?_⟩
  intro data now
  simp only [read_plaintext, write_plaintext]
  rw [hdec (J.dumpPT { data with updated := now }) now]
  simp [J.pt_roundtrip]

/-- C7 counterexample: the claim says an `add` violating the policy
invariant fails with `PolicyInvalid`, but `cmd_add` performs no validation:
adding with `--length 3` (below the spec's range `[4,128]`) succeeds and
stores a record whose `policy.length` is 3. -/
theorem C7_add_counterexample :
    ((cmd_add emptyPT "example.com" "u" none 3 none none "" (List.replicate 16 0) "t1").bind
      (fun pt => (lookupA pt.sites "example.com|u").map (fun r => r.policy.length))) =
      some 3 ∧ ¬ 4 ≤ 3 := ⟨rfl, by omega⟩

/-- C7 (amended): `cmd_add` performs no policy validation.  With no profile
it stores the user-supplied policy verbatim — whatever its length, classes
or forbid list — and raises no `PolicyInvalid`; records created from the
built-in profiles do satisfy the data-model invariant (`length ∈ [4,128]`,
non-empty classes, non-empty post-forbid alphabet).  Invalid policies only
fail later, at derivation time, inside `build_alphabet`. -/
theorem C7_add_unvalidated (pt : Plaintext) (site_id login : String) (lengthArg : Nat)
    (classesArg : Option (List String)) (forbidArg : Option (List Char)) (notes : String)
    (rseed : Bytes) (now : String)
    (habs : lookupA pt.sites (site_id ++ "|" ++ login) = none) :
    (∃ pt', cmd_add pt site_id login none lengthArg classesArg forbidArg notes rseed now =
        some pt' ∧
      lookupA pt'.sites (site_id ++ "|" ++ login) =
        some ⟨site_id, login, ALGO_VERSION, 0, rseed,
          ⟨lengthArg, classesArg.getD ["lower", "upper", "digits", "symbols"],
            forbidArg.getD forbidDefault⟩, now, notes⟩) ∧
    (∀ name pol, PROFILES name = some pol →
      4 ≤ pol.length ∧ pol.length ≤ 128 ∧ pol.classes ≠ [] ∧
        ∃ allow req, build_alphabet pol = .ok (allow, req)) := by
  constructor
  · have hcmd : cmd_add pt site_id login none lengthArg classesArg forbidArg notes rseed now =
        some (addRecord pt (site_id ++ "|" ++ login) site_id login
          ⟨lengthArg, classesArg.getD ["lower", "upper", "digits", "symbols"],
            forbidArg.getD forbidDefault⟩ rseed now notes) := by
      simp [cmd_add, habs]
    refine ⟨_, hcmd, ?_⟩
    simp only [addRecord]
    exact lookupA_setA _ _ _
  · intro name pol hp
    simp only [PROFILES] at hp
    split_ifs at hp <;>
      (injection hp with h
       subst h
       exact ⟨by decide, by decide, by decide, _, _, rfl⟩)

/-- Witness for C7 (amended): applying it to the empty vault shows the
length-3 add goes through. -/
theorem C7_add_unvalidated_witness :
    (cmd_add emptyPT "example.com" "u" none 3 none none "" (List.replicate 16 0) "t1").isSome
      = true := by
  obtain ⟨⟨pt', hpt', -⟩, -⟩ := C7_add_unvalidated emptyPT "example.com" "u" 3 none none ""
    (List.replicate 16 0) "t1" rfl
  rw [hpt']
  rfl

/-- C8 counterexample: the claim says each fallback block contributes
exactly 64 stream bytes (the ciphertext with the Poly1305 tag excluded), but
the source yields every byte of `aead.encrypt(...)`: with an AEAD obeying
the library length contract, one loop iteration emits 80 bytes, not 64, and
the emitted stream differs from the tag-stripped stream the spec
describes. -/
theorem C8_fallback_counterexample :
    fallbackOut dummyAEAD [1] (List.replicate 16 0) 1 ≠
      fallbackOutClaim dummyAEAD [1] (List.replicate 16 0) 1 ∧
    (fallbackOut dummyAEAD [1] (List.replicate 16 0) 1).length = 80 ∧
    (fallbackOutClaim dummyAEAD [1] (List.replicate 16 0) 1).length = 64 := by
  refine ⟨by decide, by decide, by decide⟩

/-- C8 (amended): in the ChaCha20-Poly1305 fallback, the byte stream emitted
for each block is the COMPLETE AEAD output for 64 zero bytes under the
12-byte nonce `nonce[:4] || be64(counter)` (counter starting at 0),
INCLUDING the 16-byte Poly1305 tag, so each block contributes exactly 80
stream bytes: byte `i` of the stream is byte `i % 80` of block `i / 80`. -/
theorem C8_fallback_stream (E : AEAD) (key nonce : Bytes) (k : Nat) :
    (fallbackOut E key nonce k).length = 80 * k ∧
    ∀ i, i < 80 * k →
      (fallbackOut E key nonce k).getD i 0 =
        (fallbackBlock E key nonce (i / 80)).getD (i % 80) 0 := by
  induction k with
  | zero => exact ⟨rfl, fun i hi => absurd hi (by omega)⟩
  | succ n ih =>
    have hblen : (fallbackBlock E key nonce n).length = 80 := by
      simp [fallbackBlock, E.encrypt_length]
    constructor
    · simp only [fallbackOut, List.length_append, ih.1, hblen]
      omega
    · intro i hi
      by_cases hcase : i < 80 * n
      · simp only [fallbackOut]
        rw [List.getD_append _ _ _ _ (by rw [ih.1]; omega)]
        exact ih.2 i hcase
      · have h1 : 80 * n ≤ i := by omega
        have h2 : i < 80 * n + 80 := by omega
        simp only [fallbackOut]
        rw [List.getD_append_right _ _ _ _ (by rw [ih.1]; omega)]
        rw [ih.1]
        rw [show i / 80 = n by omega, show i % 80 = i - 80 * n by omega]

/-- Witness for C8 (amended): byte 64 of the one-block concrete stream is a
tag byte of block 0, as the block decomposition states. -/
theorem C8_fallback_stream_witness :
    (fallbackOut dummyAEAD [1] (List.replicate 16 0) 1).getD 64 0 =
      (fallbackBlock dummyAEAD [1] (List.replicate 16 0) (64 / 80)).getD (64 % 80) 0 :=
  (C8_fallback_stream dummyAEAD [1] (List.replicate 16 0) 1).2 64 (by omega)

/-- C9: both rotation modes (CLI and web UI) unconditionally overwrite the
record's version field with `"sha512-v1"` in addition to their documented
effect: `counter` mode increments `c` by exactly 1 (keeping `rseed`),
`rseed` mode stores the 16 fresh random bytes and resets `c = 0`; the web
handlers perform the identical mutation; and with version `"sha512-v1"`
`gen_password` never raises the unsupported-version error, so a record with
an unknown version becomes derivable again after one rotate of either
mode. -/
theorem C9_rotate_version (pt : Plaintext) (site_id login : String) (entry : SiteRecord)
    (newRseed : Bytes) (now : String)
    (h : lookupA pt.sites (site_id ++ "|" ++ login) = some entry) :
    (∃ pt1, cmd_rotate pt site_id login "counter" newRseed now = some pt1 ∧
      lookupA pt1.sites (site_id ++ "|" ++ login) =
        some { entry with c := entry.c + 1, v := ALGO_VERSION }) ∧
    (∃ pt2, cmd_rotate pt site_id login "rseed" newRseed now = some pt2 ∧
      lookupA pt2.sites (site_id ++ "|" ++ login) =
        some { entry with rseed := newRseed, c := 0, v := ALGO_VERSION }) ∧
    web_rotate pt site_id login "rotate_c" newRseed now =
      cmd_rotate pt site_id login "counter" newRseed now ∧
    web_rotate pt site_id login "rotate_rseed" newRseed now =
      cmd_rotate pt site_id login "rseed" newRseed now ∧
    (∀ (P : Crypto) (master : String) (capsule : Bytes) (pol : Policy) (c : Nat)
        (rs : Bytes) (fuel : Nat),
      gen_password P master capsule site_id login pol ALGO_VERSION c rs fuel ≠
        .error .unsupportedVersion) := by
  refine ⟨?_, ?_, ?_, ?_, ?_⟩
  · have hc : cmd_rotate pt site_id login "counter" newRseed now =
        some { pt with
          sites := setA pt.sites (site_id ++ "|" ++ login)
            { entry with c := entry.c + 1, v := ALGO_VERSION },
          updated := now } := by
      simp [cmd_rotate, h]
    exact ⟨_, hc, lookupA_setA _ _ _⟩
  · have hc : cmd_rotate pt site_id login "rseed" newRseed now =
        some { pt with
          sites := setA pt.sites (site_id ++ "|" ++ login)
            { entry with rseed := newRseed, c := 0, v := ALGO_VERSION },
          updated := now } := by
      simp [cmd_rotate, h]
    exact ⟨_, hc, lookupA_setA _ _ _⟩
  · rfl
  · rfl
  · intro P master capsule pol c rs fuel
    exact gen_password_ne_unsupported P master capsule site_id login pol c rs fuel

/-- Witness for C9: rotating the concrete record (version `"old-v0"`,
`c = 5`) in counter mode yields a record with `v = "sha512-v1"` and
`c = 6`. -/
theorem C9_rotate_version_witness :
    ((cmd_rotate wPT "example.com" "u" "counter" (List.replicate 16 2) "t2").bind
      (fun pt1 => (lookupA pt1.sites ("example.com" ++ "|" ++ "u")).map
        (fun r => (r.v, r.c)))) = some (ALGO_VERSION, 6) := by
  obtain ⟨⟨pt1, h1, h2⟩, -, -, -, -⟩ :=
    C9_rotate_version wPT "example.com" "u" wRecord (List.replicate 16 2) "t2" rfl
  rw [h1]
  simp only [Option.some_bind, h2]
  rfl

/-- C10: `permute_list` returns a rearrangement of its input — the output is
a permutation (equal as multisets, hence of equal length) of the list passed
in, which itself is left untouched (the embedding is pure; the source copies
with `list(items)` before shuffling); consequently every character of a
password returned by `gen_password` is drawn from the assembled post-forbid
alphabet. -/
theorem C10_permute_alphabet (P : Crypto) :
    (∀ {α : Type} (d : α) (items : List α) (key : Bytes) (fuel : Nat) (out : List α),
      permute_list P items key d fuel = some out → List.Perm out items) ∧
    (∀ (master : String) (capsule : Bytes) (site_id login : String) (pol : Policy)
        (v : String) (c : Nat) (rseed : Bytes) (fuel : Nat) (p : List Char)
        (allow : List Char) (req : List (List Char)),
      build_alphabet pol = .ok (allow, req) →
      gen_password P master capsule site_id login pol v c rseed fuel = .ok (some p) →
      ∀ ch ∈ p, ch ∈ allow) := by
  constructor
  · intro α d items key fuel out h
    exact permute_list_perm h
  · intro master capsule site_id login pol v c rseed fuel p allow req hb hg ch hch
    obtain ⟨-, allow', req', Kpwd, Kperm, A, out, hb', hp1, hc, hp2⟩ := gen_password_ok hg
    rw [hb] at hb'
    injection hb' with hpair
    have hallow : allow' = allow := by
      have := congrArg Prod.fst hpair
      exact this.symm
    subst hallow
    have hA : List.Perm A allow' := permute_list_perm hp1
    have h0 : 0 < A.length := by
      rw [hA.length_eq]
      exact List.length_pos.mpr (build_alphabet_allow_ne_nil hb)
    have hmemA : ∀ x ∈ out.1, x ∈ A := collectPw_mem rfl h0 fuel pol.length 0 out hc
    have hchout : ch ∈ out.1 := (permute_list_perm hp2).mem_iff.mp hch
    exact hA.mem_iff.mp (hmemA ch hchout)

/-- Witness for C10: the concrete shuffle of `['x','y','z']` is a
permutation of it, and the first character of the concrete password lies in
the post-forbid alphabet (here the full lowercase class). -/
theorem C10_permute_alphabet_witness :
    List.Perm wPerm ['x', 'y', 'z'] ∧ Char.ofNat 97 ∈ "abcdefghijklmnopqrstuvwxyz".data := by
  constructor
  · exact (C10_permute_alphabet dummyCrypto).1 (Char.ofNat 97) ['x', 'y', 'z'] [3] 50 wPerm rfl
  · exact (C10_permute_alphabet dummyCrypto).2 "m" (List.replicate 32 5) "example.com" "u"
      wPolicy ALGO_VERSION 0 (List.replicate 16 0) 300 wPwd
      "abcdefghijklmnopqrstuvwxyz".data ["abcdefghijklmnopqrstuvwxyz".data] rfl rfl
      (Char.ofNat 97) (by decide)

end Pwgen
